import Mathlib

set_option maxRecDepth 100000

/-!
Verification of the durable execution core of the TrustChain agent backend:
the SQLite-backed task queue (`backend/database/queue_db.py`), the idempotency
store (`backend/database/idempotency_store.py`), the retry coordinator
(`backend/routers/swarm_ops.py`), the bounded worker dispatcher
(`backend/services/queue_worker.py`) and the hash-chained audit log
verification (`GET /chain/verify`).

The Python code is shallowly embedded: SQLite tables become Lean lists of
records (list order models rowid order), timestamps (ISO-8601 strings in the
code, which compare lexicographically exactly as their instants compare)
become `Nat`, JSON documents become the `JVal` inductive, and
`json.dumps(..., sort_keys=True)` becomes `dumps` below.  SHA-256 is
implemented in full so that concrete idempotency keys can be computed inside
Lean.
-/

namespace TrustChain

/-- JSON values as produced by `json.loads` / consumed by `json.dumps`:
null, booleans, integers, strings, arrays and objects.  Objects carry their
fields in insertion order, as Python dicts do.  (The repository only ever
serializes ints, strings, bools, nulls, lists and dicts, so float-free
`JVal` covers every value the embedded functions touch.) -/
inductive JVal where
  | jnull : JVal
  | jbool : Bool → JVal
  | jint : Int → JVal
  | jstr : String → JVal
  | jarr : List JVal → JVal
  | jobj : List (String × JVal) → JVal
deriving Repr, Inhabited

/-- Four-digit lowercase hex rendering of a code unit, for `\uXXXX` escapes. -/
def hexChar (n : Nat) : Char :=
  "0123456789abcdef".toList.getD n (Char.ofNat 48)

/-- Four hex digits, most significant first. -/
def hex4 (n : Nat) : String :=
  String.mk ((List.range 4).map fun i => hexChar ((n >>> ((3 - i) * 4)) % 16))

/-- Escape of a single character exactly as `json.dumps` (default
`ensure_ascii=True`) renders it inside a double-quoted JSON string: the
characters `"` and `\` get a backslash, the usual control shorthands are
used, every other character outside `0x20`-`0x7e` becomes `\uXXXX`
(a surrogate pair above `0xffff`), and printable ASCII passes through. -/
def jsonEscapeChar (c : Char) : String :=
  let n := c.toNat
  if n = 34 then "\\\""
  else if n = 92 then "\\\\"
  else if n = 10 then "\\n"
  else if n = 13 then "\\r"
  else if n = 9 then "\\t"
  else if n = 8 then "\\b"
  else if n = 12 then "\\f"
  else if n < 32 ∨ n > 126 then
    if n ≤ 65535 then "\\u" ++ hex4 n
    else
      let m := n - 65536
      "\\u" ++ hex4 (55296 + m / 1024) ++ "\\u" ++ hex4 (56320 + m % 1024)
  else String.singleton c

/-- Double-quoted JSON string literal, as `json.dumps` emits it. -/
def jsonQuote (s : String) : String :=
  "\"" ++ String.join (s.data.map jsonEscapeChar) ++ "\""

/-- Code-point lexicographic comparison of character lists: this is how
Python compares `str` values, which is what `sort_keys=True` sorts by. -/
def charListLE : List Char → List Char → Bool
  | [], _ => true
  | _ :: _, [] => false
  | a :: as, b :: bs =>
    if a.toNat < b.toNat then true
    else if b.toNat < a.toNat then false
    else charListLE as bs

/-- Python string comparison `a <= b`, code point by code point. -/
def strLEb (a b : String) : Bool :=
  charListLE a.data b.data

/-- The key order `sort_keys=True` sorts object fields by, lifted to pairs
whose first component is the key. -/
def fieldLE (a b : String × String) : Prop :=
  strLEb a.1 b.1 = true

instance : DecidableRel fieldLE := fun _ _ => instDecidableEqBool _ _

mutual

/-- Embedding of `json.dumps(v, sort_keys=True)` with the default
separators `(", ", ": ")`: objects have their keys sorted, ints and strings
render as in Python.  (Each field is rendered first and the rendered
`(key, text)` pairs are then sorted by key — since rendering keeps the key,
this emits exactly the same string as sorting the fields first, which is
what keeps the recursion structural.) -/
def dumps : JVal → String
  | .jnull => "null"
  | .jbool true => "true"
  | .jbool false => "false"
  | .jint n => toString n
  | .jstr s => jsonQuote s
  | .jarr elems => "[" ++ String.intercalate ", " (dumpsList elems) ++ "]"
  | .jobj fields =>
      "\x7b" ++
        String.intercalate ", "
          ((List.insertionSort fieldLE (dumpsFields fields)).map
            (fun p => jsonQuote p.1 ++ ": " ++ p.2)) ++
      "\x7d"

/-- Renders each array element. -/
def dumpsList : List JVal → List String
  | [] => []
  | x :: xs => dumps x :: dumpsList xs

/-- Renders each object field to its `(key, rendered value)` pair. -/
def dumpsFields : List (String × JVal) → List (String × String)
  | [] => []
  | (k, v) :: xs => (k, dumps v) :: dumpsFields xs

end

/-! ### SHA-256

A from-scratch executable SHA-256 over byte lists (`Nat` values below 256),
needed because `make_idempotency_key` fingerprints its arguments with
`hashlib.sha256`. -/

/-- Word arithmetic is over 32-bit values represented as `Nat` below `2^32`. -/
def M32 : Nat := 4294967296

/-- Right rotation of a 32-bit word. -/
def rotr (n x : Nat) : Nat :=
  ((x >>> n) ||| (x <<< (32 - n))) % M32

/-- The 64 SHA-256 round constants (fractional cube roots of the first
64 primes). -/
def K256 : List Nat :=
  [1116352408, 1899447441, 3049323471, 3921009573, 961987163, 1508970993,
   2453635748, 2870763221, 3624381080, 310598401, 607225278, 1426881987,
   1925078388, 2162078206, 2614888103, 3248222580, 3835390401, 4022224774,
   264347078, 604807628, 770255983, 1249150122, 1555081692, 1996064986,
   2554220882, 2821834349, 2952996808, 3210313671, 3336571891, 3584528711,
   113926993, 338241895, 666307205, 773529912, 1294757372, 1396182291,
   1695183700, 1986661051, 2177026350, 2456956037, 2730485921, 2820302411,
   3259730800, 3345764771, 3516065817, 3600352804, 4094571909, 275423344,
   430227734, 506948616, 659060556, 883997877, 958139571, 1322822218,
   1537002063, 1747873779, 1955562222, 2024104815, 2227730452, 2361852424,
   2428436474, 2756734187, 3204031479, 3329325298]

/-- SHA-256 initial hash state (fractional square roots of the first
8 primes). -/
def H256 : List Nat :=
  [1779033703, 3144134277, 1013904242, 2773480762, 1359893119, 2600822924,
   528734635, 1541459225]

/-- The eight working registers of the compression function. -/
structure Regs where
  a : Nat
  b : Nat
  c : Nat
  d : Nat
  e : Nat
  f : Nat
  g : Nat
  h : Nat
deriving Repr, DecidableEq

/-- Message padding: append `0x80`, zero bytes to 56 mod 64, then the
64-bit big-endian bit length. -/
def sha256pad (msg : List Nat) : List Nat :=
  let bitLen := msg.length * 8
  let zeros := (120 - ((msg.length + 1) % 64)) % 64
  msg ++ [128] ++ List.replicate zeros 0 ++
    ((List.range 8).map fun i => (bitLen >>> ((7 - i) * 8)) % 256)

/-- Splits a list into `n` successive 64-byte blocks. -/
def toBlocksN : Nat → List Nat → List (List Nat)
  | 0, _ => []
  | n + 1, l => l.take 64 :: toBlocksN n (l.drop 64)

/-- Splits the padded message (whose length is a multiple of 64) into its
64-byte blocks. -/
def toBlocks (l : List Nat) : List (List Nat) :=
  toBlocksN (l.length / 64) l

/-- Packs bytes into 32-bit big-endian words. -/
def toWords : List Nat → List Nat
  | b0 :: b1 :: b2 :: b3 :: rest =>
      (((b0 * 256 + b1) * 256 + b2) * 256 + b3) :: toWords rest
  | _ => []

/-- The small sigma-0 schedule function. -/
def ssig0 (x : Nat) : Nat := (rotr 7 x) ^^^ (rotr 18 x) ^^^ (x >>> 3)

/-- The small sigma-1 schedule function. -/
def ssig1 (x : Nat) : Nat := (rotr 17 x) ^^^ (rotr 19 x) ^^^ (x >>> 10)

/-- Extends the 16-word block to the full 64-word message schedule by
appending `k` further words. -/
def extendW (w : List Nat) : Nat → List Nat
  | 0 => w
  | k + 1 =>
      let i := w.length
      let nw := (w.getD (i - 16) 0 + ssig0 (w.getD (i - 15) 0) +
                 w.getD (i - 7) 0 + ssig1 (w.getD (i - 2) 0)) % M32
      extendW (w ++ [nw]) k

/-- One round of the SHA-256 compression function. -/
def round256 (st : Regs) (kw : Nat × Nat) : Regs :=
  let s1 := (rotr 6 st.e) ^^^ (rotr 11 st.e) ^^^ (rotr 25 st.e)
  let ch := (st.e &&& st.f) ^^^ ((st.e ^^^ (M32 - 1)) &&& st.g)
  let t1 := (st.h + s1 + ch + kw.1 + kw.2) % M32
  let s0 := (rotr 2 st.a) ^^^ (rotr 13 st.a) ^^^ (rotr 22 st.a)
  let mj := (st.a &&& st.b) ^^^ (st.a &&& st.c) ^^^ (st.b &&& st.c)
  let t2 := (s0 + mj) % M32
  { a := (t1 + t2) % M32, b := st.a, c := st.b, d := st.c,
    e := (st.d + t1) % M32, f := st.e, g := st.f, h := st.g }

/-- Compression of one 64-byte block into the running hash state. -/
def compressBlock (st : Regs) (block : List Nat) : Regs :=
  let w := extendW (toWords block) 48
  let r := (K256.zip w).foldl round256 st
  { a := (st.a + r.a) % M32, b := (st.b + r.b) % M32,
    c := (st.c + r.c) % M32, d := (st.d + r.d) % M32,
    e := (st.e + r.e) % M32, f := (st.f + r.f) % M32,
    g := (st.g + r.g) % M32, h := (st.h + r.h) % M32 }

/-- Initial register state from `H256`. -/
def initRegs : Regs :=
  { a := H256.getD 0 0, b := H256.getD 1 0, c := H256.getD 2 0,
    d := H256.getD 3 0, e := H256.getD 4 0, f := H256.getD 5 0,
    g := H256.getD 6 0, h := H256.getD 7 0 }

/-- Eight hex digits of a 32-bit word, most significant first. -/
def toHex8 (n : Nat) : String :=
  String.mk ((List.range 8).map fun i => hexChar ((n >>> ((7 - i) * 4)) % 16))

/-- Full SHA-256 of a byte list, rendered as the usual 64-character
lowercase hex digest (what `hashlib.sha256(...).hexdigest()` returns). -/
def sha256hex (msg : List Nat) : String :=
  let r := (toBlocks (sha256pad msg)).foldl compressBlock initRegs
  toHex8 r.a ++ toHex8 r.b ++ toHex8 r.c ++ toHex8 r.d ++
  toHex8 r.e ++ toHex8 r.f ++ toHex8 r.g ++ toHex8 r.h

/-- UTF-8-free byte view of the ASCII strings the embedding hashes
(`json.dumps` with `ensure_ascii=True` only ever emits ASCII, where the
UTF-8 bytes are exactly the code points). -/
def strBytes (s : String) : List Nat :=
  s.data.map Char.toNat

/-- Embedding of `make_idempotency_key` from
`backend/database/idempotency_store.py`: the key is
`task_id ++ "::" ++ tool_name ++ "::" ++ first 12 hex chars of
sha256(json.dumps(call_args, sort_keys=True))`. -/
def make_idempotency_key (task_id tool_name : String) (call_args : JVal) : String :=
  let args_fingerprint := (sha256hex (strBytes (dumps call_args))).take 12
  task_id ++ "::" ++ tool_name ++ "::" ++ args_fingerprint

/-! ### Idempotency store

`backend/database/idempotency_store.py` keeps one row per idempotency key in
the `idempotency_log` table.  The table is embedded as a list of records in
rowid (insertion) order; `response_body` is the parsed form of the JSON text
column (`mark_completed` receives a Python `dict`, so a stored body is
always an object). -/

/-- One row of `idempotency_log`. -/
structure IdemRecord where
  idempotency_key : String
  task_id : String
  tool_name : String
  status : String
  response_body : Option (List (String × JVal))
  created_at : Nat
  completed_at : Option Nat
deriving Repr

/-- Python `dict.get(k)` on a parsed JSON object. -/
def jlookup (k : String) (fs : List (String × JVal)) : Option JVal :=
  (fs.find? (fun p => p.1 == k)).map Prod.snd

/-- The value `check_idempotent` returns on a hit:
`{"__cached__": True, "response": ...}` where `response` is the parsed body
(or `None` when the body column is NULL). -/
structure CachedResp where
  response : Option (List (String × JVal))
deriving Repr

/-- Embedding of `check_idempotent`: looks the key up (`SELECT ... WHERE
idempotency_key = ?` returns the first — only — matching row); a COMPLETED
row yields the cached response, a missing or STARTED row yields `None`.
The function runs a single SELECT, so the store itself is untouched. -/
def check_idempotent (store : List IdemRecord) (key : String) : Option CachedResp :=
  match store.find? (fun r => r.idempotency_key == key) with
  | none => none
  | some r =>
    if r.status == "COMPLETED" then some { response := r.response_body }
    else none

/-- Stateful view of `check_idempotent`, making the read-only contract a
statement: the returned store is the input store. -/
def check_idempotent_st (store : List IdemRecord) (key : String) :
    Option CachedResp × List IdemRecord :=
  (check_idempotent store key, store)

/-- Embedding of `mark_started`: `INSERT OR IGNORE` — if a row with the key
exists the statement is a no-op, otherwise a STARTED row with NULL body and
NULL `completed_at` is appended. -/
def mark_started (key task_id tool_name : String) (now : Nat)
    (store : List IdemRecord) : List IdemRecord :=
  if store.any (fun r => r.idempotency_key == key) then store
  else store ++ [⟨key, task_id, tool_name, "STARTED", none, now, none⟩]

/-- Embedding of `mark_completed`: `UPDATE idempotency_log SET status =
COMPLETED, response_body = ?, completed_at = ? WHERE idempotency_key = ?`.
Rows with other keys are untouched; when no row has the key the UPDATE
matches nothing and the store is unchanged. -/
def mark_completed (key : String) (response : List (String × JVal)) (now : Nat)
    (store : List IdemRecord) : List IdemRecord :=
  store.map fun r =>
    if r.idempotency_key == key then
      { r with status := "COMPLETED", response_body := some response,
               completed_at := some now }
    else r

/-- SQLite `ORDER BY completed_at ASC` key order (NULLs sort first). -/
def optNatLE : Option Nat → Option Nat → Bool
  | none, _ => true
  | some _, none => false
  | some a, some b => a ≤ b

/-- Order relation on records for `ORDER BY completed_at ASC`. -/
def completedAtLE (r s : IdemRecord) : Prop :=
  optNatLE r.completed_at s.completed_at = true

instance : DecidableRel completedAtLE := fun _ _ => instDecidableEqBool _ _

/-- The step dictionaries `get_completed_steps` builds for the retry
context. -/
structure Step where
  tool : String
  result_summary : JVal
  completed_at : Option Nat
deriving Repr

/-- The `result_summary` computation:
`(json.loads(body) if body else {}).get("summary", "completed")`. -/
def summaryOf : Option (List (String × JVal)) → JVal
  | some fs => (jlookup "summary" fs).getD (.jstr "completed")
  | none => .jstr "completed"

/-- Embedding of `get_completed_steps`: the COMPLETED rows of the task,
ordered by `completed_at` ascending (insertion sort is stable, matching the
rowid tie order of the SQL scan), projected to step dictionaries. -/
def get_completed_steps (task_id : String) (store : List IdemRecord) : List Step :=
  ((store.filter fun r => r.task_id == task_id && r.status == "COMPLETED").insertionSort
      completedAtLE).map fun r =>
    { tool := r.tool_name, result_summary := summaryOf r.response_body,
      completed_at := r.completed_at }

/-! ### Durable task queue

`backend/database/queue_db.py` persists tasks in the `trigger_tasks` table,
embedded as a list of rows in rowid order.  `payload` is stored as JSON
text produced by `json.dumps` on a dict and parsed back on read, so the
row carries the structured value directly. -/

/-- One row of `trigger_tasks`. -/
structure TaskRow where
  id : String
  task_slug : String
  payload : JVal
  status : String
  result : Option JVal
  error : Option String
  created_at : Nat
  updated_at : Nat
deriving Repr

/-- Embedding of `enqueue_task`: mints the id
`"trigger_" + slug + "_" + suffix` (the suffix models the first 8 chars of
the fresh uuid4) and appends a PENDING row.  Returns the id and the new
table. -/
def enqueue_task (task_slug : String) (payload : JVal) (suffix : String)
    (now : Nat) (rows : List TaskRow) : String × List TaskRow :=
  let task_id := "trigger_" ++ task_slug ++ "_" ++ suffix
  (task_id,
   rows ++ [⟨task_id, task_slug, payload, "PENDING", none, none, now, now⟩])

/-- SQL row predicate `status = 'PENDING'`. -/
def isPending (r : TaskRow) : Bool :=
  r.status == "PENDING"

/-- The row `SELECT ... WHERE status = 'PENDING' ORDER BY created_at ASC
LIMIT 1` returns from a candidate list: the earliest `created_at`,
earliest-in-table on ties. -/
def minByCreated : List TaskRow → Option TaskRow
  | [] => none
  | r :: rest =>
    match minByCreated rest with
    | none => some r
    | some b => if r.created_at ≤ b.created_at then some r else some b

/-- The dict `claim_pending_task` returns for the claimed row. -/
structure ClaimedTask where
  id : String
  task_slug : String
  payload : JVal
deriving Repr

/-- The `UPDATE trigger_tasks SET status = 'RUNNING', updated_at = ? WHERE
id = ?` step of a claim. -/
def setRunning (now : Nat) (task_id : String) (rows : List TaskRow) : List TaskRow :=
  rows.map fun r =>
    if r.id == task_id then { r with status := "RUNNING", updated_at := now }
    else r

/-- Embedding of `claim_pending_task`: inside one `BEGIN IMMEDIATE`
transaction, select the oldest PENDING row; if none exists commit and
return `None` leaving the table unchanged, otherwise flip that row to
RUNNING and return its id, slug and parsed payload.  The serializing
transaction is what makes the select-and-update one atomic unit. -/
def claim_pending_task (now : Nat) (rows : List TaskRow) :
    Option ClaimedTask × List TaskRow :=
  match minByCreated (rows.filter isPending) with
  | none => (none, rows)
  | some row =>
    (some ⟨row.id, row.task_slug, row.payload⟩, setRunning now row.id rows)

/-- Embedding of `update_task_status`: one UPDATE that overwrites status,
result, error (writing NULL when the argument is absent) and bumps
`updated_at` on every row with the id; a missing id matches nothing. -/
def update_task_status (task_id status : String) (result : Option JVal)
    (error : Option String) (now : Nat) (rows : List TaskRow) : List TaskRow :=
  rows.map fun r =>
    if r.id == task_id then
      { r with status := status, result := result, error := error,
               updated_at := now }
    else r

/-- The four per-status counters `get_queue_stats` returns. -/
structure QueueStats where
  pending : Nat
  running : Nat
  success : Nat
  failed : Nat
deriving Repr, DecidableEq

/-- Embedding of `get_queue_stats`: `SELECT status, count(*) ... GROUP BY
status`, folded into the fixed four-key dict — a count for a status string
outside the four is silently dropped. -/
def get_queue_stats (rows : List TaskRow) : QueueStats :=
  { pending := rows.countP (fun r => r.status == "PENDING"),
    running := rows.countP (fun r => r.status == "RUNNING"),
    success := rows.countP (fun r => r.status == "SUCCESS"),
    failed := rows.countP (fun r => r.status == "FAILED") }

/-- `sum(stats().values())`. -/
def statsSum (s : QueueStats) : Nat :=
  s.pending + s.running + s.success + s.failed

/-! ### Python string formatting helpers

`retry_task` builds its retry note with f-strings; interpolating a
non-string value uses Python `str()`, which for parsed-JSON values is
`repr`-style rendering of containers. -/

/-- The single-quote character. -/
def sq : Char := Char.ofNat 39

/-- The double-quote character. -/
def dq : Char := Char.ofNat 34

/-- The backslash character. -/
def bsl : Char := Char.ofNat 92

/-- Two hex digits of a byte. -/
def hex2 (n : Nat) : String :=
  String.mk [hexChar (n / 16 % 16), hexChar (n % 16)]

/-- Escaping of one character inside a Python string repr quoted by `q`. -/
def pyEscapeChar (q c : Char) : String :=
  if c = bsl then String.mk [bsl, bsl]
  else if c = q then String.mk [bsl, q]
  else if c.toNat = 10 then "\\n"
  else if c.toNat = 13 then "\\r"
  else if c.toNat = 9 then "\\t"
  else if c.toNat < 32 ∨ c.toNat = 127 then "\\x" ++ hex2 c.toNat
  else String.singleton c

/-- Python `repr` of a `str`: single-quoted, except double-quoted when the
text contains a single quote and no double quote. -/
def pyStrRepr (s : String) : String :=
  let q := if s.data.contains sq && !(s.data.contains dq) then dq else sq
  String.singleton q ++ String.join (s.data.map (pyEscapeChar q)) ++
    String.singleton q

mutual

/-- Python `repr` of a parsed-JSON value. -/
def pyRepr : JVal → String
  | .jnull => "None"
  | .jbool true => "True"
  | .jbool false => "False"
  | .jint n => toString n
  | .jstr s => pyStrRepr s
  | .jarr elems => "[" ++ String.intercalate ", " (pyReprList elems) ++ "]"
  | .jobj fields =>
      "\x7b" ++ String.intercalate ", " (pyReprFields fields) ++ "\x7d"

/-- Represents each list element. -/
def pyReprList : List JVal → List String
  | [] => []
  | x :: xs => pyRepr x :: pyReprList xs

/-- Represents each dict item as `'key': value`. -/
def pyReprFields : List (String × JVal) → List String
  | [] => []
  | (k, v) :: xs => (pyStrRepr k ++ ": " ++ pyRepr v) :: pyReprFields xs

end

/-- Python `str()` as used by f-string interpolation: a string passes
through unquoted, anything else renders as its repr. -/
def pyStr : JVal → String
  | .jstr s => s
  | v => pyRepr v

/-- Rendering of the stored `completed_at` value inside the note (the
model's `Nat` timestamp, or `None` for a NULL column). -/
def timeStr : Option Nat → String
  | some n => toString n
  | none => "None"

/-! ### Retry coordinator

`retry_task` in `backend/routers/swarm_ops.py`. -/

/-- The one step line
`"  ✅ {tool} — {result_summary} (at {completed_at})\n"`. -/
def stepLine (s : Step) : String :=
  "  ✅ " ++ s.tool ++ " — " ++ pyStr s.result_summary ++ " (at " ++
    timeStr s.completed_at ++ ")\n"

/-- The full retry note appended to the instruction when at least one
completed step exists. -/
def retryNote (steps : List Step) : String :=
  "\n\n⚠️ RETRY CONTEXT — DO NOT REPEAT COMPLETED STEPS:\n" ++
  "The following steps were ALREADY successfully executed in the previous attempt:\n" ++
  String.join (steps.map stepLine) ++
  "\nSkip these steps and continue from where the previous run failed."

/-- Python dict assignment `payload["instruction"] = v`: replaces the value
in place when the key exists, appends the item otherwise. -/
def setField (fs : List (String × JVal)) (k : String) (v : JVal) :
    List (String × JVal) :=
  if fs.any (fun p => p.1 == k) then
    fs.map fun p => if p.1 == k then (k, v) else p
  else fs ++ [(k, v)]

/-- The try-block body patching the payload:
`payload["instruction"] = payload.get("instruction", "") + retry_note`.
`none` models the `except` path — the payload is not a dict, or its
`instruction` value is not a string so the `+` raises `TypeError`. -/
def patchPayload (payload : JVal) (note : String) : Option JVal :=
  match payload with
  | .jobj fs =>
    match jlookup "instruction" fs with
    | some (.jstr s) => some (.jobj (setField fs "instruction" (.jstr (s ++ note))))
    | none => some (.jobj (setField fs "instruction" (.jstr ("" ++ note))))
    | some _ => none
  | _ => none

/-- What the endpoint reports: a 404, a 400 carrying the offending status,
or success carrying `completed_steps_injected`. -/
inductive RetryOutcome where
  | notFound : RetryOutcome
  | wrongStatus : String → RetryOutcome
  | requeued : Nat → RetryOutcome
deriving Repr, DecidableEq

/-- The fallback UPDATE used when there are no completed steps or the
payload patch raised: `SET status='PENDING', error=NULL, updated_at=?`. -/
def requeuePlain (task_id : String) (now : Nat) (rows : List TaskRow) :
    List TaskRow :=
  rows.map fun r =>
    if r.id == task_id then
      { r with status := "PENDING", error := none, updated_at := now }
    else r

/-- The UPDATE used when the payload was patched:
`SET status='PENDING', error=NULL, payload=?, updated_at=?`. -/
def requeueWithPayload (task_id : String) (payload : JVal) (now : Nat)
    (rows : List TaskRow) : List TaskRow :=
  rows.map fun r =>
    if r.id == task_id then
      { r with status := "PENDING", error := none, payload := payload,
               updated_at := now }
    else r

/-- Embedding of `retry_task`: reject a missing id with 404 and a
non-FAILED status with 400 — both before any write; otherwise read the
task's completed idempotency steps, patch the payload with the retry note
when any exist (falling back to the plain requeue if the patch raises),
requeue as PENDING with `error` cleared, and report the number of injected
steps. -/
def retry_task (task_id : String) (now : Nat) (rows : List TaskRow)
    (store : List IdemRecord) : RetryOutcome × List TaskRow :=
  match rows.find? (fun r => r.id == task_id) with
  | none => (.notFound, rows)
  | some row =>
    if row.status != "FAILED" then (.wrongStatus row.status, rows)
    else
      let completed_steps := get_completed_steps task_id store
      if completed_steps.isEmpty then
        (.requeued completed_steps.length, requeuePlain task_id now rows)
      else
        match patchPayload row.payload (retryNote completed_steps) with
        | some payload =>
          (.requeued completed_steps.length,
           requeueWithPayload task_id payload now rows)
        | none =>
          (.requeued completed_steps.length, requeuePlain task_id now rows)

/-! ### Operation sequences over the stores

Closed under the operations the spec quantifies over, for the invariant
claims. -/

/-- A queue-store operation: enqueue, claim, or a status update (the status
argument of `update_task_status` is an arbitrary string in the code). -/
inductive QueueOp where
  | enq : String → JVal → String → Nat → QueueOp
  | claim : Nat → QueueOp
  | upd : String → String → Option JVal → Option String → Nat → QueueOp

/-- Applies one operation to the table. -/
def applyQueueOp (rows : List TaskRow) : QueueOp → List TaskRow
  | .enq slug payload suffix now => (enqueue_task slug payload suffix now rows).2
  | .claim now => (claim_pending_task now rows).2
  | .upd task_id status result error now =>
      update_task_status task_id status result error now rows

/-- Runs a sequence of queue operations from the empty table. -/
def runQueueOps (ops : List QueueOp) : List TaskRow :=
  ops.foldl applyQueueOp []

/-- An idempotency-store operation. -/
inductive IdemOp where
  | started : String → String → String → Nat → IdemOp
  | completed : String → List (String × JVal) → Nat → IdemOp

/-- Applies one operation to the store. -/
def applyIdemOp (store : List IdemRecord) : IdemOp → List IdemRecord
  | .started key task_id tool_name now => mark_started key task_id tool_name now store
  | .completed key response now => mark_completed key response now store

/-- Runs a sequence of idempotency-store operations from the empty store. -/
def runIdemOps (ops : List IdemOp) : List IdemRecord :=
  ops.foldl applyIdemOp []

/-! ### Worker dispatcher

`_worker_loop` in `backend/services/queue_worker.py`.  One loop iteration
is embedded as a step function on the dispatcher state: the loop first
calls `claim_pending_task()`; with no task it sleeps and polls again; with
a task it `await`s the semaphore (which suspends with the task already
claimed whenever all slots are busy) and then launches the callback.
`release_sem`, registered as the done-callback, releases the slot when the
dispatched callback finishes. -/

/-- The concurrency bound of the task engine. -/
def MAX_CONCURRENT_WORKERS : Nat := 10

/-- Dispatcher state: the task table, the semaphore's free-slot count, and
the ids handed to `asyncio.create_task` so far. -/
structure DispatcherState where
  queue : List TaskRow
  freeSlots : Nat
  dispatched : List String
deriving Repr

/-- What one pass through the loop body did. -/
inductive IterOutcome where
  | idleSleep : IterOutcome
  | launched : String → IterOutcome
  | claimedAwaitingSlot : String → IterOutcome
deriving Repr, DecidableEq

/-- One iteration of `_worker_loop`: claim first; if nothing was claimed,
sleep 2s and loop; if a task was claimed and a slot is free, take the slot
and launch the callback without awaiting it; if a task was claimed while
all slots are busy, the iteration suspends inside `acquire()` holding the
already-RUNNING task. -/
def worker_iteration (now : Nat) (s : DispatcherState) :
    IterOutcome × DispatcherState :=
  match claim_pending_task now s.queue with
  | (none, q) => (.idleSleep, { s with queue := q })
  | (some t, q) =>
    if s.freeSlots = 0 then
      (.claimedAwaitingSlot t.id, { s with queue := q })
    else
      (.launched t.id,
       { queue := q, freeSlots := s.freeSlots - 1,
         dispatched := s.dispatched ++ [t.id] })

/-- The semaphore release performed by the done-callback when a dispatched
execution finishes. -/
def release_sem (s : DispatcherState) : DispatcherState :=
  { s with freeSlots := s.freeSlots + 1 }

/-- Sequentialized racing claims: `BEGIN IMMEDIATE` serializes concurrent
`claim_pending_task` transactions, so a race of `k` callers executes as
`k` claims in some order; each caller gets the result of its own
transaction. -/
def claimMany (now : Nat) : Nat → List TaskRow →
    List (Option ClaimedTask) × List TaskRow
  | 0, rows => ([], rows)
  | k + 1, rows =>
    let (r, rows1) := claim_pending_task now rows
    let (rs, rows2) := claimMany now k rows1
    (r :: rs, rows2)

/-! ### Audit chain verification -/

/-- One operation of the hash-linked audit chain, restricted to the two
fields the link check reads. -/
structure ChainOp where
  signature : String
  parent_signature : Option String
deriving Repr, DecidableEq, Inhabited

/-- The dict `verify_chain()` returns. -/
structure VerifyResult where
  valid : Bool
  length : Nat
  broken_links : List Nat
deriving Repr, DecidableEq

/-- Modelled from the spec: `_tc.chain.verify()` lives in the external
`trustchain` package (only its caller `verify_chain_endpoint` is under
`src/`), so the walk is taken from spec §4.5 — for each entry `i > 0`
compare `entry[i].parent_signature` with `entry[i-1].signature`, record
each mismatch by index, `valid` is false exactly when some link broke, and
the empty chain is `valid=true, length=0`. -/
def verify_chain (chain : List ChainOp) : VerifyResult :=
  let broken := (List.range chain.length).filter fun i =>
    decide (0 < i) &&
      !((chain.getD i default).parent_signature ==
        some ((chain.getD (i - 1) default).signature))
  { valid := broken.isEmpty, length := chain.length, broken_links := broken }

/-- Mutation of entry `i`'s stored `parent_signature` (the tamper action of
the chain test). -/
def mutateParentSig (chain : List ChainOp) (i : Nat) (v : String) : List ChainOp :=
  chain.set i { chain.getD i default with parent_signature := some v }

/-! ### Remaining definitions used by the theorems -/

/-- Key order together with key distinctness — the strict version of
`fieldLE` used to identify equal sorted lists. -/
def fieldLEne (a b : String × String) : Prop :=
  fieldLE a b ∧ a.1 ≠ b.1

/-- Rows whose status is one of the four canonical strings — exactly the
rows `get_queue_stats` buckets count. -/
def canonicalStatus (r : TaskRow) : Bool :=
  r.status == "PENDING" || r.status == "RUNNING" || r.status == "SUCCESS" ||
    r.status == "FAILED"

/-- Queue-operation sequences whose status updates stay within the four
canonical statuses (every caller in the repository does). -/
def updCanonical : QueueOp → Prop
  | .upd _ st _ _ _ =>
      st = "PENDING" ∨ st = "RUNNING" ∨ st = "SUCCESS" ∨ st = "FAILED"
  | _ => True

/-- A five-operation, correctly linked chain for the tamper-detection
scenario. -/
def sampleChain : List ChainOp :=
  [⟨"sig0", none⟩, ⟨"sig1", some "sig0"⟩, ⟨"sig2", some "sig1"⟩,
   ⟨"sig3", some "sig2"⟩, ⟨"sig4", some "sig3"⟩]

/-! ## Helper lemmas -/

theorem charListLE_total : ∀ a b : List Char, charListLE a b = true ∨ charListLE b a = true
  | [], _ => Or.inl rfl
  | _ :: _, [] => Or.inr rfl
  | a :: as, b :: bs => by
    rcases Nat.lt_trichotomy a.toNat b.toNat with h | h | h
    · left
      simp [charListLE, h]
    · have h2 : ¬ a.toNat < b.toNat := by omega
      have h3 : ¬ b.toNat < a.toNat := by omega
      have hr := charListLE_total as bs
      simp only [charListLE, if_neg h2, if_neg h3, h]
      simpa [h2, h3, h] using hr
    · right
      simp [charListLE, h]

theorem charListLE_trans : ∀ a b c : List Char, charListLE a b = true →
    charListLE b c = true → charListLE a c = true
  | [], _, _ => by intro _ _; rfl
  | _ :: _, [], _ => by intro h _; simp [charListLE] at h
  | _ :: _, _ :: _, [] => by intro _ h; simp [charListLE] at h
  | a :: as, b :: bs, c :: cs => by
    intro hab hbc
    simp only [charListLE] at hab hbc ⊢
    rcases Nat.lt_trichotomy a.toNat b.toNat with h1 | h1 | h1 <;>
      rcases Nat.lt_trichotomy b.toNat c.toNat with h2 | h2 | h2 <;>
      [skip; skip; skip; skip; skip; skip; skip; skip; skip] <;>
      first
        | (simp only [if_pos (by omega : a.toNat < c.toNat)])
        | (have hac2 : ¬ a.toNat < c.toNat := by omega
           have hac3 : ¬ c.toNat < a.toNat := by omega
           simp only [if_neg hac2, if_neg hac3]
           have hb2 : ¬ a.toNat < b.toNat := by omega
           have hb3 : ¬ b.toNat < a.toNat := by omega
           have hc2 : ¬ b.toNat < c.toNat := by omega
           have hc3 : ¬ c.toNat < b.toNat := by omega
           simp only [if_neg hb2, if_neg hb3] at hab
           simp only [if_neg hc2, if_neg hc3] at hbc
           exact charListLE_trans as bs cs hab hbc)
        | (exfalso
           first
             | (have hb2 : ¬ a.toNat < b.toNat := by omega
                have hb3 : b.toNat < a.toNat := by omega
                simp [if_neg hb2, if_pos hb3] at hab)
             | (have hc2 : ¬ b.toNat < c.toNat := by omega
                have hc3 : c.toNat < b.toNat := by omega
                simp [if_neg hc2, if_pos hc3] at hbc))

theorem charListLE_antisymm : ∀ a b : List Char, charListLE a b = true →
    charListLE b a = true → a = b
  | [], [] => by intro _ _; rfl
  | [], _ :: _ => by intro _ h; simp [charListLE] at h
  | _ :: _, [] => by intro h _; simp [charListLE] at h
  | a :: as, b :: bs => by
    intro hab hba
    rcases Nat.lt_trichotomy a.toNat b.toNat with h | h | h
    · exfalso
      have h3 : ¬ b.toNat < a.toNat := by omega
      simp only [charListLE, if_neg h3, if_pos h] at hba
      exact Bool.false_ne_true hba
    · have h2 : ¬ a.toNat < b.toNat := by omega
      have h3 : ¬ b.toNat < a.toNat := by omega
      simp only [charListLE, if_neg h2, if_neg h3] at hab
      simp only [charListLE, if_neg h3, if_neg h2] at hba
      have heq : a = b := Char.ext (UInt32.toNat.inj h)
      rw [heq, charListLE_antisymm as bs hab hba]
    · exfalso
      have h2 : ¬ a.toNat < b.toNat := by omega
      simp only [charListLE, if_neg h2, if_pos h] at hab
      exact Bool.false_ne_true hab

instance : IsTotal (String × String) fieldLE :=
  ⟨fun a b => charListLE_total a.1.data b.1.data⟩

instance : IsTrans (String × String) fieldLE :=
  ⟨fun _ _ _ hab hbc => charListLE_trans _ _ _ hab hbc⟩

instance : IsAntisymm (String × String) fieldLEne :=
  ⟨fun a b hab hba => by
    exfalso
    exact hab.2 (congrArg String.mk (charListLE_antisymm _ _ hab.1 hba.1))⟩

theorem insertionSort_key_congr {l₁ l₂ : List (String × String)}
    (hperm : l₁.Perm l₂) (hnd : (l₁.map Prod.fst).Nodup) :
    List.insertionSort fieldLE l₁ = List.insertionSort fieldLE l₂ := by
  have hp₁ : (List.insertionSort fieldLE l₁).Perm l₁ :=
    List.perm_insertionSort fieldLE l₁
  have hp₂ : (List.insertionSort fieldLE l₂).Perm l₂ :=
    List.perm_insertionSort fieldLE l₂
  have hp : (List.insertionSort fieldLE l₁).Perm (List.insertionSort fieldLE l₂) :=
    (hp₁.trans hperm).trans hp₂.symm
  have hnd₁ : ((List.insertionSort fieldLE l₁).map Prod.fst).Nodup :=
    ((hp₁.map Prod.fst).nodup_iff).mpr hnd
  have hnd₂ : ((List.insertionSort fieldLE l₂).map Prod.fst).Nodup :=
    ((hp.map Prod.fst).nodup_iff).mp hnd₁
  have hs₁ : (List.insertionSort fieldLE l₁).Pairwise fieldLEne := by
    have ha := List.sorted_insertionSort fieldLE l₁
    have hb : (List.insertionSort fieldLE l₁).Pairwise (fun a b => a.1 ≠ b.1) :=
      List.pairwise_map.mp hnd₁
    exact (List.Pairwise.and ha hb).imp fun h => ⟨h.1, h.2⟩
  have hs₂ : (List.insertionSort fieldLE l₂).Pairwise fieldLEne := by
    have ha := List.sorted_insertionSort fieldLE l₂
    have hb : (List.insertionSort fieldLE l₂).Pairwise (fun a b => a.1 ≠ b.1) :=
      List.pairwise_map.mp hnd₂
    exact (List.Pairwise.and ha hb).imp fun h => ⟨h.1, h.2⟩
  exact List.eq_of_perm_of_sorted hp hs₁ hs₂

theorem dumpsFields_eq_map (l : List (String × JVal)) :
    dumpsFields l = l.map (fun p => (p.1, dumps p.2)) := by
  induction l with
  | nil => rfl
  | cons p rest ih =>
    cases p with
    | mk k v => simp [dumpsFields, ih]

theorem dumps_jobj_congr {f₁ f₂ : List (String × JVal)}
    (hperm : f₁.Perm f₂) (hnd : (f₁.map Prod.fst).Nodup) :
    dumps (.jobj f₁) = dumps (.jobj f₂) := by
  have hpr : (dumpsFields f₁).Perm (dumpsFields f₂) := by
    rw [dumpsFields_eq_map, dumpsFields_eq_map]
    exact hperm.map _
  have hndr : ((dumpsFields f₁).map Prod.fst).Nodup := by
    rw [dumpsFields_eq_map, List.map_map]
    exact hnd
  show "\x7b" ++ _ ++ "\x7d" = "\x7b" ++ _ ++ "\x7d"
  rw [insertionSort_key_congr hpr hndr]

theorem find?_id_map (g : TaskRow → TaskRow) (hg : ∀ r, (g r).id = r.id)
    (rows : List TaskRow) (tid : String) :
    (rows.map g).find? (fun r => r.id == tid) =
      (rows.find? (fun r => r.id == tid)).map g := by
  induction rows with
  | nil => rfl
  | cons r rest ih =>
    cases hb : (r.id == tid) with
    | true => simp [List.find?, hg, hb]
    | false => simp [List.find?, hg, hb, ih]

theorem find?_key_unique {α : Type} (f : α → String) {l : List α} {k : String}
    {r : α} (hnd : (l.map f).Nodup) (hr : r ∈ l) (hk : f r = k) :
    l.find? (fun x => f x == k) = some r := by
  induction l with
  | nil => cases hr
  | cons a rest ih =>
    simp only [List.map_cons, List.nodup_cons] at hnd
    rcases List.mem_cons.mp hr with rfl | hmem
    · rw [List.find?_cons_of_pos _ (by simp [hk])]
    · by_cases hb : (f a == k) = true
      · exfalso
        have hfa : f a = k := by simpa using hb
        exact hnd.1 (by rw [hfa, ← hk]; exact List.mem_map_of_mem f hmem)
      · rw [List.find?_cons_of_neg _ (by simpa using hb)]
        exact ih hnd.2 hmem

theorem minByCreated_mem : ∀ {l : List TaskRow} {b : TaskRow},
    minByCreated l = some b → b ∈ l
  | [], _ => by intro h; cases h
  | r :: rest, b => by
    intro h
    rcases hm : minByCreated rest with _ | m
    · simp only [minByCreated, hm, Option.some.injEq] at h
      subst h
      exact List.mem_cons_self _ _
    · simp only [minByCreated, hm] at h
      by_cases hle : r.created_at ≤ m.created_at
      · rw [if_pos hle, Option.some.injEq] at h
        subst h
        exact List.mem_cons_self _ _
      · rw [if_neg hle, Option.some.injEq] at h
        subst h
        exact List.mem_cons_of_mem _ (minByCreated_mem hm)

theorem minByCreated_head {a : TaskRow} {rest : List TaskRow}
    (h : ∀ x ∈ rest, a.created_at ≤ x.created_at) :
    minByCreated (a :: rest) = some a := by
  rcases hm : minByCreated rest with _ | m
  · simp only [minByCreated, hm]
  · simp only [minByCreated, hm]
    rw [if_pos (h m (minByCreated_mem hm))]

theorem claim_of_min (now : Nat) {rows : List TaskRow} {row : TaskRow}
    (h : minByCreated (rows.filter isPending) = some row) :
    claim_pending_task now rows =
      (some ⟨row.id, row.task_slug, row.payload⟩, setRunning now row.id rows) := by
  simp only [claim_pending_task, h]

theorem claim_of_no_pending (now : Nat) {rows : List TaskRow}
    (h : rows.filter isPending = []) :
    claim_pending_task now rows = (none, rows) := by
  simp only [claim_pending_task, h, minByCreated]

theorem filter_pending_setRunning (now : Nat) (i : String) (rows : List TaskRow) :
    (setRunning now i rows).filter isPending =
      (rows.filter isPending).filter (fun r => !(r.id == i)) := by
  unfold setRunning
  rw [List.filter_map, List.filter_filter]
  have h1 : rows.filter (isPending ∘ fun r =>
      if r.id == i then { r with status := "RUNNING", updated_at := now } else r) =
      rows.filter (fun r => !(r.id == i) && isPending r) := by
    apply List.filter_congr
    intro x _
    by_cases hx : (x.id == i) = true
    · simp [Function.comp, hx, isPending]
    · simp [Function.comp, hx]
  rw [h1]
  have h2 : ∀ x ∈ rows.filter (fun r => !(r.id == i) && isPending r),
      (if x.id == i then { x with status := "RUNNING", updated_at := now } else x) = x := by
    intro x hx
    have hc := (List.mem_filter.mp hx).2
    rw [if_neg (by rcases Bool.and_eq_true_iff.mp hc with ⟨h, _⟩; simp at h; simp [h])]
  have h3 : (rows.filter (fun r => !(r.id == i) && isPending r)).map (fun x =>
      if x.id == i then { x with status := "RUNNING", updated_at := now } else x) =
      (rows.filter (fun r => !(r.id == i) && isPending r)).map (fun x => x) :=
    List.map_congr_left h2
  rw [h3, List.map_id']

theorem ids_setRunning (now : Nat) (i : String) (rows : List TaskRow) :
    (setRunning now i rows).map (fun r => r.id) = rows.map (fun r => r.id) := by
  unfold setRunning
  rw [List.map_map]
  apply List.map_congr_left
  intro x _
  by_cases hx : (x.id == i) = true
  · simp [Function.comp, hx]
  · simp [Function.comp, hx]

theorem setRunning_status_self {now : Nat} {i : String} {rows : List TaskRow}
    {r : TaskRow} (hmem : r ∈ setRunning now i rows) (hid : r.id = i) :
    r.status = "RUNNING" := by
  unfold setRunning at hmem
  rcases List.mem_map.mp hmem with ⟨a, _, ha⟩
  by_cases hai : (a.id == i) = true
  · rw [if_pos hai] at ha
    rw [← ha]
  · rw [if_neg hai] at ha
    subst ha
    simp [hid] at hai

theorem setRunning_mem_of_ne {now : Nat} {i : String} {rows : List TaskRow}
    {r : TaskRow} (hmem : r ∈ setRunning now i rows) (hid : r.id ≠ i) :
    r ∈ rows := by
  unfold setRunning at hmem
  rcases List.mem_map.mp hmem with ⟨a, hamem, ha⟩
  by_cases hai : (a.id == i) = true
  · rw [if_pos hai] at ha
    exfalso
    apply hid
    rw [← ha]
    simpa using hai
  · rw [if_neg hai] at ha
    subst ha
    exact hamem

/-! ## Claim theorems -/

/-- C1: the chain integrity check reports as broken exactly the indices
`i > 0` whose stored `parent_signature` differs from entry `i-1`'s
`signature`, `valid` is true exactly when no link is broken, the empty
chain verifies as `valid=true, length=0`, the well-linked five-operation
chain verifies clean, and mutating entry 2's `parent_signature` to any
other value yields `valid=false` with `broken_links = [2]` — index 2 and
no other. -/
theorem verify_chain_spec (chain : List ChainOp) (i : Nat) (v : String)
    (hv : v ≠ "sig1") :
    verify_chain ([] : List ChainOp) = ⟨true, 0, []⟩ ∧
    (verify_chain chain).length = chain.length ∧
    ((verify_chain chain).valid = true ↔ (verify_chain chain).broken_links = []) ∧
    (i ∈ (verify_chain chain).broken_links ↔
      0 < i ∧ i < chain.length ∧
        (chain.getD i default).parent_signature ≠
          some ((chain.getD (i - 1) default).signature)) ∧
    verify_chain sampleChain = ⟨true, 5, []⟩ ∧
    verify_chain (mutateParentSig sampleChain 2 v) = ⟨false, 5, [2]⟩ := by
  refine ⟨by decide, rfl, ?_, ?_, by decide, ?_⟩
  · simp [verify_chain, List.isEmpty_iff]
  · simp only [verify_chain, List.mem_filter, List.mem_range, Bool.and_eq_true,
      decide_eq_true_eq, Bool.not_eq_true', beq_eq_false_iff_ne, ne_eq]
    constructor
    · rintro ⟨h1, h2, h3⟩
      exact ⟨h2, h1, h3⟩
    · rintro ⟨h1, h2, h3⟩
      exact ⟨h2, h1, h3⟩
  · have hm : mutateParentSig sampleChain 2 v =
        [⟨"sig0", none⟩, ⟨"sig1", some "sig0"⟩, ⟨"sig2", some v⟩,
         ⟨"sig3", some "sig2"⟩, ⟨"sig4", some "sig3"⟩] := by
      simp [mutateParentSig, sampleChain]
    have hveq : (some v == some "sig1") = false := by
      simp [hv]
    rw [hm]
    simp [verify_chain, List.range_succ, hveq]

/-- Witness for C1 at `v := "evil"`. -/
theorem verify_chain_spec_witness :
    verify_chain ([] : List ChainOp) = ⟨true, 0, []⟩ ∧
    (verify_chain sampleChain).length = sampleChain.length ∧
    ((verify_chain sampleChain).valid = true ↔
      (verify_chain sampleChain).broken_links = []) ∧
    (2 ∈ (verify_chain sampleChain).broken_links ↔
      0 < 2 ∧ 2 < sampleChain.length ∧
        (sampleChain.getD 2 default).parent_signature ≠
          some ((sampleChain.getD 1 default).signature)) ∧
    verify_chain sampleChain = ⟨true, 5, []⟩ ∧
    verify_chain (mutateParentSig sampleChain 2 "evil") = ⟨false, 5, [2]⟩ :=
  verify_chain_spec sampleChain 2 "evil" (by decide)

/-- C5: retry is rejected synchronously before any write, both for a
missing task id (404) and for a task whose status is PENDING, RUNNING or
SUCCESS (400 carrying the status); in both cases the task table — hence
the task's row — is returned unchanged. -/
theorem retry_precondition (tid : String) (now : Nat) (rows : List TaskRow)
    (store : List IdemRecord) :
    (rows.find? (fun r => r.id == tid) = none →
      retry_task tid now rows store = (.notFound, rows)) ∧
    (∀ row, rows.find? (fun r => r.id == tid) = some row →
      row.status = "PENDING" ∨ row.status = "RUNNING" ∨ row.status = "SUCCESS" →
      retry_task tid now rows store = (.wrongStatus row.status, rows)) := by
  constructor
  · intro h
    simp [retry_task, h]
  · intro row hfind hst
    have hne : (row.status != "FAILED") = true := by
      rcases hst with h | h | h <;> rw [h] <;> rfl
    simp [retry_task, hfind, hne]

/-- Witness for C5: a missing id and a PENDING task are both rejected with
the table unchanged. -/
theorem retry_precondition_witness :
    retry_task "missing" 7 [⟨"t1", "s", .jobj [], "PENDING", none, none, 0, 0⟩] [] =
      (.notFound, [⟨"t1", "s", .jobj [], "PENDING", none, none, 0, 0⟩]) ∧
    retry_task "t1" 7 [⟨"t1", "s", .jobj [], "PENDING", none, none, 0, 0⟩] [] =
      (.wrongStatus "PENDING", [⟨"t1", "s", .jobj [], "PENDING", none, none, 0, 0⟩]) :=
  ⟨(retry_precondition "missing" 7 [⟨"t1", "s", .jobj [], "PENDING", none, none, 0, 0⟩] []).1 rfl,
   (retry_precondition "t1" 7 [⟨"t1", "s", .jobj [], "PENDING", none, none, 0, 0⟩] []).2
     ⟨"t1", "s", .jobj [], "PENDING", none, none, 0, 0⟩ rfl (Or.inl rfl)⟩

/-- C6: `check` returns the cached response exactly for keys present with a
COMPLETED record; a missing key and a STARTED record both yield `None`; and
the call leaves the store as it was. -/
theorem check_idempotent_spec (store : List IdemRecord) (key : String)
    (hnd : (store.map (fun r => r.idempotency_key)).Nodup) :
    check_idempotent_st store key = (check_idempotent store key, store) ∧
    ((∀ r ∈ store, r.idempotency_key ≠ key) → check_idempotent store key = none) ∧
    (∀ r ∈ store, r.idempotency_key = key →
      (r.status = "COMPLETED" →
        check_idempotent store key = some ⟨r.response_body⟩) ∧
      (r.status = "STARTED" → check_idempotent store key = none)) := by
  refine ⟨rfl, ?_, ?_⟩
  · intro h
    have hf : store.find? (fun r => r.idempotency_key == key) = none :=
      List.find?_eq_none.mpr (fun x hx => by simpa using h x hx)
    simp [check_idempotent, hf]
  · intro r hr hk
    have hf := find?_key_unique (fun r => r.idempotency_key) hnd hr hk
    constructor
    · intro hs
      simp [check_idempotent, hf, hs]
    · intro hs
      have hc : (r.status == "COMPLETED") = false := by rw [hs]; rfl
      simp [check_idempotent, hf, hc]

/-- Witness for C6 on a two-record store: a COMPLETED key hits the cache, a
STARTED key and an absent key miss. -/
theorem check_idempotent_spec_witness :
    check_idempotent
        [⟨"k1", "t", "tool", "COMPLETED", some [("summary", .jstr "ok")], 0, some 1⟩,
         ⟨"k2", "t", "tool", "STARTED", none, 2, none⟩] "k1" =
      some ⟨some [("summary", .jstr "ok")]⟩ ∧
    check_idempotent
        [⟨"k1", "t", "tool", "COMPLETED", some [("summary", .jstr "ok")], 0, some 1⟩,
         ⟨"k2", "t", "tool", "STARTED", none, 2, none⟩] "k2" = none ∧
    check_idempotent
        [⟨"k1", "t", "tool", "COMPLETED", some [("summary", .jstr "ok")], 0, some 1⟩,
         ⟨"k2", "t", "tool", "STARTED", none, 2, none⟩] "kX" = none :=
  ⟨((check_idempotent_spec _ "k1" (by decide)).2.2
      ⟨"k1", "t", "tool", "COMPLETED", some [("summary", .jstr "ok")], 0, some 1⟩
      (List.mem_cons_self _ _) rfl).1 rfl,
   ((check_idempotent_spec _ "k2" (by decide)).2.2
      ⟨"k2", "t", "tool", "STARTED", none, 2, none⟩
      (List.mem_cons_of_mem _ (List.mem_cons_self _ _)) rfl).2 rfl,
   (check_idempotent_spec _ "kX" (by decide)).2.1 (by decide)⟩

/-- C8 counterexample: with all slots busy (`freeSlots = 0`) and one
PENDING task, the loop iteration still claims the task — it transitions it
to RUNNING and only then suspends waiting for a slot — refuting "it never
claims a task while saturated". -/
theorem dispatcher_saturated_claim_counterexample :
    (DispatcherState.mk [⟨"t1", "s", .jobj [], "PENDING", none, none, 0, 0⟩] 0 []).freeSlots
        = 0 ∧
    (worker_iteration 1 ⟨[⟨"t1", "s", .jobj [], "PENDING", none, none, 0, 0⟩], 0, []⟩).1 =
      .claimedAwaitingSlot "t1" ∧
    ((worker_iteration 1 ⟨[⟨"t1", "s", .jobj [], "PENDING", none, none, 0, 0⟩], 0, []⟩).2.queue.map
        (fun r => r.status)) = ["RUNNING"] := by
  refine ⟨rfl, rfl, rfl⟩

/-- C8 (amended): each iteration attempts `claim_one` first; when nothing
is claimable it only sleeps, leaving slots and dispatch list unchanged;
when a task is claimed while saturated the iteration blocks on the
semaphore holding the already-claimed task, with no slot taken; when a
task is claimed and a slot is free, exactly one slot is acquired — only
after the successful claim — and the callback is dispatched; the done
callback releases the slot. -/
theorem dispatcher_claim_then_slot (now : Nat) (s : DispatcherState) :
    ((claim_pending_task now s.queue).1 = none →
      worker_iteration now s = (.idleSleep, s)) ∧
    (∀ t, (claim_pending_task now s.queue).1 = some t → s.freeSlots = 0 →
      worker_iteration now s =
        (.claimedAwaitingSlot t.id,
         { s with queue := (claim_pending_task now s.queue).2 })) ∧
    (∀ t, (claim_pending_task now s.queue).1 = some t → 0 < s.freeSlots →
      worker_iteration now s =
        (.launched t.id,
         ⟨(claim_pending_task now s.queue).2, s.freeSlots - 1,
          s.dispatched ++ [t.id]⟩)) ∧
    release_sem s = { s with freeSlots := s.freeSlots + 1 } := by
  refine ⟨?_, ?_, ?_, rfl⟩
  · intro h
    rcases hm : minByCreated (s.queue.filter isPending) with _ | row
    · have hc : claim_pending_task now s.queue = (none, s.queue) := by
        simp [claim_pending_task, hm]
      simp [worker_iteration, hc]
    · exfalso
      have hc : (claim_pending_task now s.queue).1 = some ⟨row.id, row.task_slug, row.payload⟩ := by
        simp [claim_pending_task, hm]
      rw [h] at hc
      cases hc
  · intro t ht h0
    rcases hm : minByCreated (s.queue.filter isPending) with _ | row
    · exfalso
      have hc : (claim_pending_task now s.queue).1 = none := by
        simp [claim_pending_task, hm]
      rw [ht] at hc
      cases hc
    · have hc : claim_pending_task now s.queue =
          (some ⟨row.id, row.task_slug, row.payload⟩, setRunning now row.id s.queue) := by
        simp [claim_pending_task, hm]
      have ht2 : t = ⟨row.id, row.task_slug, row.payload⟩ := by
        rw [hc] at ht
        exact ((Option.some.injEq _ _).mp ht).symm
      subst ht2
      simp [worker_iteration, hc, h0]
  · intro t ht hpos
    rcases hm : minByCreated (s.queue.filter isPending) with _ | row
    · exfalso
      have hc : (claim_pending_task now s.queue).1 = none := by
        simp [claim_pending_task, hm]
      rw [ht] at hc
      cases hc
    · have hc : claim_pending_task now s.queue =
          (some ⟨row.id, row.task_slug, row.payload⟩, setRunning now row.id s.queue) := by
        simp [claim_pending_task, hm]
      have ht2 : t = ⟨row.id, row.task_slug, row.payload⟩ := by
        rw [hc] at ht
        exact ((Option.some.injEq _ _).mp ht).symm
      subst ht2
      have hne : ¬ s.freeSlots = 0 := by omega
      simp [worker_iteration, hc, hne]

/-- Witness for C8's amended theorem: an empty queue iteration sleeps; a
saturated iteration blocks after claiming; a free-slot iteration
dispatches; the release callback frees the slot. -/
theorem dispatcher_claim_then_slot_witness :
    worker_iteration 1 ⟨[], 0, []⟩ = (.idleSleep, ⟨[], 0, []⟩) ∧
    worker_iteration 1 ⟨[⟨"t1", "s", .jobj [], "PENDING", none, none, 0, 0⟩], 0, []⟩ =
      (.claimedAwaitingSlot "t1",
       ⟨[⟨"t1", "s", .jobj [], "RUNNING", none, none, 0, 1⟩], 0, []⟩) ∧
    worker_iteration 1 ⟨[⟨"t1", "s", .jobj [], "PENDING", none, none, 0, 0⟩], 2, []⟩ =
      (.launched "t1",
       ⟨[⟨"t1", "s", .jobj [], "RUNNING", none, none, 0, 1⟩], 1, ["t1"]⟩) ∧
    release_sem ⟨[], 4, []⟩ = ⟨[], 5, []⟩ :=
  ⟨(dispatcher_claim_then_slot 1 ⟨[], 0, []⟩).1 rfl,
   (dispatcher_claim_then_slot 1 ⟨[⟨"t1", "s", .jobj [], "PENDING", none, none, 0, 0⟩], 0, []⟩).2.1
     ⟨"t1", "s", .jobj []⟩ rfl rfl,
   (dispatcher_claim_then_slot 1 ⟨[⟨"t1", "s", .jobj [], "PENDING", none, none, 0, 0⟩], 2, []⟩).2.2.1
     ⟨"t1", "s", .jobj []⟩ rfl (by decide),
   (dispatcher_claim_then_slot 1 ⟨[], 4, []⟩).2.2.2⟩

/-- C4 counterexample: the key joins its components with `::`, so two
different (task_id, tool_name, args) triples can collide — `("a::b", "c")`
and `("a", "b::c")` with identical args produce the very same key, refuting
"different triples always yield different keys". -/
theorem make_key_collision :
    make_idempotency_key "a::b" "c" (.jobj []) =
      make_idempotency_key "a" "b::c" (.jobj []) ∧
    ¬ ("a::b" = "a" ∧ "c" = "b::c") :=
  ⟨rfl, by decide⟩

/-- C4 (amended): the key is deterministic and order-independent over the
argument dict — argument lists equal as key-value mappings give equal
keys — and the two example dicts give different keys for every task id;
unrestricted distinctness of different triples, however, fails at the
collision counterexample, because the components are joined with `::` and
the args contribute only a 12-hex-char fingerprint. -/
theorem make_key_deterministic :
    (∀ (t n : String) (f₁ f₂ : List (String × JVal)), f₁.Perm f₂ →
      (f₁.map Prod.fst).Nodup →
      make_idempotency_key t n (.jobj f₁) = make_idempotency_key t n (.jobj f₂)) ∧
    (∀ t : String,
      make_idempotency_key t "toolA" (.jobj [("a", .jint 1), ("b", .jint 2)]) ≠
        make_idempotency_key t "toolA" (.jobj [("a", .jint 1), ("b", .jint 3)])) := by
  constructor
  · intro t n f₁ f₂ hperm hnd
    unfold make_idempotency_key
    rw [dumps_jobj_congr hperm hnd]
  · intro t h
    have h₁ : (sha256hex (strBytes
        (dumps (.jobj [("a", .jint 1), ("b", .jint 2)])))).take 12 = "d8497d9d8277" := by
      decide
    have h₂ : (sha256hex (strBytes
        (dumps (.jobj [("a", .jint 1), ("b", .jint 3)])))).take 12 = "5bfbcb6911b6" := by
      decide
    unfold make_idempotency_key at h
    rw [h₁, h₂] at h
    have hd := congrArg String.data h
    simp only [String.data_append] at hd
    exact absurd (List.append_cancel_left hd) (by decide)

/-- Witness for C4: at `T` the swapped dict gives the same key and the
changed dict gives a different key. -/
theorem make_key_deterministic_witness :
    make_idempotency_key "T" "toolA" (.jobj [("b", .jint 2), ("a", .jint 1)]) =
      make_idempotency_key "T" "toolA" (.jobj [("a", .jint 1), ("b", .jint 2)]) ∧
    make_idempotency_key "T" "toolA" (.jobj [("a", .jint 1), ("b", .jint 2)]) ≠
      make_idempotency_key "T" "toolA" (.jobj [("a", .jint 1), ("b", .jint 3)]) :=
  ⟨make_key_deterministic.1 "T" "toolA" _ _ (List.Perm.swap _ _ _) (by decide),
   make_key_deterministic.2 "T"⟩

/-- C2: with exactly three PENDING tasks created at strictly increasing
times (and unique row ids), three sequential claims return them oldest
first, flipping each claimed row to RUNNING; afterwards — and on any table
without a PENDING row — a claim returns `None` and leaves the table
unchanged. -/
theorem claim_fifo_order (now₁ now₂ now₃ : Nat) (rows : List TaskRow)
    (a b c : TaskRow) (hids : (rows.map (fun r => r.id)).Nodup)
    (hp : rows.filter isPending = [a, b, c])
    (h₁₂ : a.created_at < b.created_at) (h₂₃ : b.created_at < c.created_at) :
    claim_pending_task now₁ rows =
      (some ⟨a.id, a.task_slug, a.payload⟩, setRunning now₁ a.id rows) ∧
    claim_pending_task now₂ (setRunning now₁ a.id rows) =
      (some ⟨b.id, b.task_slug, b.payload⟩,
       setRunning now₂ b.id (setRunning now₁ a.id rows)) ∧
    claim_pending_task now₃ (setRunning now₂ b.id (setRunning now₁ a.id rows)) =
      (some ⟨c.id, c.task_slug, c.payload⟩,
       setRunning now₃ c.id (setRunning now₂ b.id (setRunning now₁ a.id rows))) ∧
    (∀ r ∈ setRunning now₃ c.id (setRunning now₂ b.id (setRunning now₁ a.id rows)),
      r.id = a.id ∨ r.id = b.id ∨ r.id = c.id → r.status = "RUNNING") ∧
    (∀ now₄, claim_pending_task now₄
        (setRunning now₃ c.id (setRunning now₂ b.id (setRunning now₁ a.id rows))) =
      (none, setRunning now₃ c.id (setRunning now₂ b.id (setRunning now₁ a.id rows)))) ∧
    (∀ (rows₀ : List TaskRow) (now₀ : Nat), rows₀.filter isPending = [] →
      claim_pending_task now₀ rows₀ = (none, rows₀)) := by
  have hsub : List.Sublist [a, b, c] rows := hp ▸ List.filter_sublist rows
  have hnd3 : ([a, b, c].map (fun r => r.id)).Nodup :=
    List.Nodup.sublist (hsub.map (fun r => r.id)) hids
  simp only [List.map_cons, List.map_nil, List.nodup_cons, List.mem_cons,
    List.mem_singleton, List.not_mem_nil, or_false, not_or] at hnd3
  obtain ⟨⟨hab, hac⟩, hbc, -⟩ := hnd3
  have eaa : (a.id == a.id) = true := by simp
  have ebb : (b.id == b.id) = true := by simp
  have ecc : (c.id == c.id) = true := by simp
  have eba : (b.id == a.id) = false := beq_eq_false_iff_ne.mpr (Ne.symm hab)
  have eca : (c.id == a.id) = false := beq_eq_false_iff_ne.mpr (Ne.symm hac)
  have ecb : (c.id == b.id) = false := beq_eq_false_iff_ne.mpr (Ne.symm hbc)
  have hmin₁ : minByCreated (rows.filter isPending) = some a := by
    rw [hp]
    apply minByCreated_head
    intro x hx
    rcases List.mem_cons.mp hx with rfl | hx2
    · omega
    · rcases List.mem_singleton.mp (by simpa using hx2) with rfl
      omega
  have hp₁ : (setRunning now₁ a.id rows).filter isPending = [b, c] := by
    rw [filter_pending_setRunning, hp]
    simp [List.filter_cons, eaa, eba, eca]
  have hp₂ : (setRunning now₂ b.id (setRunning now₁ a.id rows)).filter isPending = [c] := by
    rw [filter_pending_setRunning, hp₁]
    simp [List.filter_cons, ebb, ecb]
  have hp₃ : (setRunning now₃ c.id
      (setRunning now₂ b.id (setRunning now₁ a.id rows))).filter isPending = [] := by
    rw [filter_pending_setRunning, hp₂]
    simp [List.filter_cons, ecc]
  have hmin₂ : minByCreated ((setRunning now₁ a.id rows).filter isPending) = some b := by
    rw [hp₁]
    apply minByCreated_head
    intro x hx
    rcases List.mem_singleton.mp (by simpa using hx) with rfl
    omega
  have hmin₃ : minByCreated ((setRunning now₂ b.id
      (setRunning now₁ a.id rows)).filter isPending) = some c := by
    rw [hp₂]
    apply minByCreated_head
    intro x hx
    cases hx
  refine ⟨claim_of_min now₁ hmin₁, claim_of_min now₂ hmin₂, claim_of_min now₃ hmin₃,
    ?_, fun now₄ => claim_of_no_pending now₄ hp₃,
    fun rows₀ now₀ h₀ => claim_of_no_pending now₀ h₀⟩
  intro r hr hcase
  rcases hcase with hra | hrb | hrc
  · have hr₂ : r ∈ setRunning now₂ b.id (setRunning now₁ a.id rows) :=
      setRunning_mem_of_ne hr (by rw [hra]; exact hac)
    have hr₁ : r ∈ setRunning now₁ a.id rows :=
      setRunning_mem_of_ne hr₂ (by rw [hra]; exact hab)
    exact setRunning_status_self hr₁ hra
  · have hr₂ : r ∈ setRunning now₂ b.id (setRunning now₁ a.id rows) :=
      setRunning_mem_of_ne hr (by rw [hrb]; exact hbc)
    exact setRunning_status_self hr₂ hrb
  · exact setRunning_status_self hr hrc

/-- Witness for C2 on a concrete three-task queue enqueued at times
1 < 2 < 3. -/
theorem claim_fifo_order_witness :
    claim_pending_task 10
        [⟨"t1", "s1", .jobj [], "PENDING", none, none, 1, 1⟩,
         ⟨"t2", "s2", .jobj [], "PENDING", none, none, 2, 2⟩,
         ⟨"t3", "s3", .jobj [], "PENDING", none, none, 3, 3⟩] =
      (some ⟨"t1", "s1", .jobj []⟩,
       setRunning 10 "t1"
        [⟨"t1", "s1", .jobj [], "PENDING", none, none, 1, 1⟩,
         ⟨"t2", "s2", .jobj [], "PENDING", none, none, 2, 2⟩,
         ⟨"t3", "s3", .jobj [], "PENDING", none, none, 3, 3⟩]) ∧
    claim_pending_task 11
        (setRunning 10 "t1"
          [⟨"t1", "s1", .jobj [], "PENDING", none, none, 1, 1⟩,
           ⟨"t2", "s2", .jobj [], "PENDING", none, none, 2, 2⟩,
           ⟨"t3", "s3", .jobj [], "PENDING", none, none, 3, 3⟩]) =
      (some ⟨"t2", "s2", .jobj []⟩,
       setRunning 11 "t2" (setRunning 10 "t1"
          [⟨"t1", "s1", .jobj [], "PENDING", none, none, 1, 1⟩,
           ⟨"t2", "s2", .jobj [], "PENDING", none, none, 2, 2⟩,
           ⟨"t3", "s3", .jobj [], "PENDING", none, none, 3, 3⟩])) :=
  ⟨(claim_fifo_order 10 11 12
      [⟨"t1", "s1", .jobj [], "PENDING", none, none, 1, 1⟩,
       ⟨"t2", "s2", .jobj [], "PENDING", none, none, 2, 2⟩,
       ⟨"t3", "s3", .jobj [], "PENDING", none, none, 3, 3⟩]
      ⟨"t1", "s1", .jobj [], "PENDING", none, none, 1, 1⟩
      ⟨"t2", "s2", .jobj [], "PENDING", none, none, 2, 2⟩
      ⟨"t3", "s3", .jobj [], "PENDING", none, none, 3, 3⟩
      (by decide) rfl (by decide) (by decide)).1,
   (claim_fifo_order 10 11 12
      [⟨"t1", "s1", .jobj [], "PENDING", none, none, 1, 1⟩,
       ⟨"t2", "s2", .jobj [], "PENDING", none, none, 2, 2⟩,
       ⟨"t3", "s3", .jobj [], "PENDING", none, none, 3, 3⟩]
      ⟨"t1", "s1", .jobj [], "PENDING", none, none, 1, 1⟩
      ⟨"t2", "s2", .jobj [], "PENDING", none, none, 2, 2⟩
      ⟨"t3", "s3", .jobj [], "PENDING", none, none, 3, 3⟩
      (by decide) rfl (by decide) (by decide)).2.1⟩

/-- Lemma for C9: once no PENDING row remains, every further sequential
claim returns `None` and leaves the table as is. -/
theorem claimMany_none (now : Nat) : ∀ (k : Nat) (rows : List TaskRow),
    rows.filter isPending = [] →
    claimMany now k rows = (List.replicate k none, rows)
  | 0, rows => by intro _; rfl
  | k + 1, rows => by
    intro h
    have h₁ := claim_of_no_pending now h
    simp only [claimMany, h₁]
    rw [claimMany_none now k rows h]
    simp [List.replicate_succ]

/-- C9: when `k ≥ 1` racing callers are serialized by the claim
transaction against a table whose only PENDING task is `p`, the first
transaction returns `p` — leaving `p`'s row RUNNING within that same
atomic step — and the other `k - 1` all return `None`; in particular
exactly one caller receives a task. -/
theorem exclusive_claim (now : Nat) (k : Nat) (rows : List TaskRow)
    (p : TaskRow) (hp : rows.filter isPending = [p]) (hk : 1 ≤ k) :
    (claimMany now k rows).1 =
      some ⟨p.id, p.task_slug, p.payload⟩ :: List.replicate (k - 1) none ∧
    (∀ r ∈ (claimMany now k rows).2, r.id = p.id → r.status = "RUNNING") ∧
    ((claimMany now k rows).1.countP (fun o => o.isSome)) = 1 := by
  obtain ⟨m, rfl⟩ : ∃ m, k = m + 1 := ⟨k - 1, by omega⟩
  have hmin : minByCreated (rows.filter isPending) = some p := by
    rw [hp]
    apply minByCreated_head
    intro x hx
    cases hx
  have hc := claim_of_min now hmin
  have hp₁ : (setRunning now p.id rows).filter isPending = [] := by
    rw [filter_pending_setRunning, hp]
    simp [List.filter_cons]
  have hrest := claimMany_none now m (setRunning now p.id rows) hp₁
  have hall : claimMany now (m + 1) rows =
      (some ⟨p.id, p.task_slug, p.payload⟩ :: List.replicate m none,
       setRunning now p.id rows) := by
    simp only [claimMany, hc, hrest]
  refine ⟨?_, ?_, ?_⟩
  · rw [hall]
    simp
  · intro r hr hid
    rw [hall] at hr
    exact setRunning_status_self hr hid
  · rw [hall]
    simp only [List.countP_cons, Option.isSome_some, if_pos]
    have : (List.replicate m (none : Option ClaimedTask)).countP (fun o => o.isSome) = 0 := by
      induction m with
      | zero => rfl
      | succ n ih => simp [List.replicate_succ, List.countP_cons, ih]
    simp [this]

/-- Witness for C9: three racing claims against a one-task queue — the
first gets the task, the other two get `None`. -/
theorem exclusive_claim_witness :
    (claimMany 9 3 [⟨"t1", "s1", .jobj [], "PENDING", none, none, 1, 1⟩]).1 =
      some ⟨"t1", "s1", .jobj []⟩ :: List.replicate 2 none ∧
    ((claimMany 9 3 [⟨"t1", "s1", .jobj [], "PENDING", none, none, 1, 1⟩]).1.countP
      (fun o => o.isSome)) = 1 :=
  ⟨(exclusive_claim 9 3 [⟨"t1", "s1", .jobj [], "PENDING", none, none, 1, 1⟩]
      ⟨"t1", "s1", .jobj [], "PENDING", none, none, 1, 1⟩
      rfl (by decide)).1,
   (exclusive_claim 9 3 [⟨"t1", "s1", .jobj [], "PENDING", none, none, 1, 1⟩]
      ⟨"t1", "s1", .jobj [], "PENDING", none, none, 1, 1⟩
      rfl (by decide)).2.2⟩

/-- Lemma for C10: every record reachable by a sequence of store
operations either descends from a seed record with the same identity
fields or carries the identity fields of some `started` operation of the
sequence. -/
theorem foldIdemOps_identity : ∀ (ops : List IdemOp) (s : List IdemRecord),
    ∀ r ∈ ops.foldl applyIdemOp s,
    (∃ r₀ ∈ s, r₀.idempotency_key = r.idempotency_key ∧
      r₀.task_id = r.task_id ∧ r₀.tool_name = r.tool_name) ∨
    (∃ now, IdemOp.started r.idempotency_key r.task_id r.tool_name now ∈ ops) := by
  intro ops
  induction ops with
  | nil =>
    intro s r hr
    exact Or.inl ⟨r, hr, rfl, rfl, rfl⟩
  | cons op rest ih =>
    intro s r hr
    simp only [List.foldl_cons] at hr
    rcases ih (applyIdemOp s op) r hr with ⟨r₀, hr₀, h1, h2, h3⟩ | ⟨now, hnow⟩
    · cases op with
      | started k tid tool n =>
        simp only [applyIdemOp, mark_started] at hr₀
        by_cases hany : (s.any (fun x => x.idempotency_key == k)) = true
        · rw [if_pos hany] at hr₀
          exact Or.inl ⟨r₀, hr₀, h1, h2, h3⟩
        · rw [if_neg hany] at hr₀
          rcases List.mem_append.mp hr₀ with hin | hnew
          · exact Or.inl ⟨r₀, hin, h1, h2, h3⟩
          · rcases List.mem_singleton.mp hnew with rfl
            right
            refine ⟨n, ?_⟩
            simp only at h1 h2 h3
            rw [← h1, ← h2, ← h3]
            exact List.mem_cons_self _ _
      | completed k resp n =>
        simp only [applyIdemOp, mark_completed] at hr₀
        rcases List.mem_map.mp hr₀ with ⟨x, hx, hxeq⟩
        have hid : x.idempotency_key = r₀.idempotency_key ∧
            x.task_id = r₀.task_id ∧ x.tool_name = r₀.tool_name := by
          by_cases hk : (x.idempotency_key == k) = true
          · rw [if_pos hk] at hxeq
            rw [← hxeq]
            exact ⟨rfl, rfl, rfl⟩
          · rw [if_neg hk] at hxeq
            rw [hxeq]
            exact ⟨rfl, rfl, rfl⟩
        exact Or.inl ⟨x, hx, hid.1.trans h1, hid.2.1.trans h2, hid.2.2.trans h3⟩
    · exact Or.inr ⟨now, List.mem_cons_of_mem _ hnow⟩

/-- C10: `mark_completed` on an unknown key is a silent no-op; it never
changes any record's key, task id or tool name (nor the row count);
`mark_started` on a fresh key appends exactly one STARTED record; and over
every operation sequence from the empty store, every record — in
particular every COMPLETED one — carries the identity fields of some
`mark_started` call in the sequence, so a COMPLETED record was first
inserted as STARTED. -/
theorem completed_implies_started :
    (∀ (store : List IdemRecord) (key : String) (resp : List (String × JVal)) (now : Nat),
      (∀ r ∈ store, r.idempotency_key ≠ key) →
      mark_completed key resp now store = store) ∧
    (∀ (store : List IdemRecord) (key : String) (resp : List (String × JVal)) (now : Nat),
      (mark_completed key resp now store).map
          (fun r => (r.idempotency_key, r.task_id, r.tool_name)) =
        store.map (fun r => (r.idempotency_key, r.task_id, r.tool_name))) ∧
    (∀ (key task_id tool_name : String) (now : Nat) (store : List IdemRecord),
      (∀ r ∈ store, r.idempotency_key ≠ key) →
      mark_started key task_id tool_name now store =
        store ++ [⟨key, task_id, tool_name, "STARTED", none, now, none⟩]) ∧
    (∀ ops : List IdemOp, ∀ r ∈ runIdemOps ops,
      ∃ now, IdemOp.started r.idempotency_key r.task_id r.tool_name now ∈ ops) := by
  refine ⟨?_, ?_, ?_, ?_⟩
  · intro store key resp now h
    unfold mark_completed
    have hc : ∀ x ∈ store,
        (if x.idempotency_key == key then
          { x with status := "COMPLETED", response_body := some resp,
                   completed_at := some now }
         else x) = x := by
      intro x hx
      rw [if_neg (by simpa using h x hx)]
    have h3 : store.map (fun x =>
        if x.idempotency_key == key then
          { x with status := "COMPLETED", response_body := some resp,
                   completed_at := some now }
        else x) = store.map (fun x => x) := List.map_congr_left hc
    rw [h3, List.map_id']
  · intro store key resp now
    unfold mark_completed
    rw [List.map_map]
    apply List.map_congr_left
    intro x _
    by_cases hx : (x.idempotency_key == key) = true
    · simp [Function.comp, hx]
    · simp [Function.comp, hx]
  · intro key task_id tool_name now store h
    unfold mark_started
    rw [if_neg]
    intro hc
    rcases List.any_eq_true.mp hc with ⟨r, hr, hrk⟩
    exact h r hr (by simpa using hrk)
  · intro ops r hr
    rcases foldIdemOps_identity ops [] r hr with ⟨r₀, hr₀, -⟩ | h
    · cases hr₀
    · exact h

/-- Witness for C10: completing a key absent from a one-record store
changes nothing; the started insert appends the STARTED row; and in the
two-operation run every record traces back to its `started` operation. -/
theorem completed_implies_started_witness :
    mark_completed "kX" [("ok", .jbool true)] 5
        [⟨"k1", "t", "tool", "STARTED", none, 0, none⟩] =
      [⟨"k1", "t", "tool", "STARTED", none, 0, none⟩] ∧
    mark_started "k1" "t" "tool" 0 [] =
      [⟨"k1", "t", "tool", "STARTED", none, 0, none⟩] ∧
    (∀ r ∈ runIdemOps [.started "k1" "t" "tool" 0, .completed "k1" [("ok", .jbool true)] 1],
      ∃ now, IdemOp.started r.idempotency_key r.task_id r.tool_name now ∈
        [IdemOp.started "k1" "t" "tool" 0, .completed "k1" [("ok", .jbool true)] 1]) :=
  ⟨completed_implies_started.1 [⟨"k1", "t", "tool", "STARTED", none, 0, none⟩]
     "kX" [("ok", .jbool true)] 5 (by decide),
   completed_implies_started.2.2.1 "k1" "t" "tool" 0 [] (by intro r hr; cases hr),
   completed_implies_started.2.2.2
     [.started "k1" "t" "tool" 0, .completed "k1" [("ok", .jbool true)] 1]⟩

/-- Lemma for C7: the four counters of `get_queue_stats` sum to the number
of rows whose status is one of the four canonical strings. -/
theorem statsSum_eq_countP (rows : List TaskRow) :
    statsSum (get_queue_stats rows) = rows.countP canonicalStatus := by
  induction rows with
  | nil => rfl
  | cons r rest ih =>
    simp only [get_queue_stats, statsSum, List.countP_cons, canonicalStatus] at *
    by_cases h1 : (r.status == "PENDING") = true <;>
      by_cases h2 : (r.status == "RUNNING") = true <;>
      by_cases h3 : (r.status == "SUCCESS") = true <;>
      by_cases h4 : (r.status == "FAILED") = true <;>
      simp_all <;> omega

/-- Lemma for C7: each queue operation with a canonical update status keeps
every row's status canonical. -/
theorem applyQueueOp_canonical {rows : List TaskRow} {op : QueueOp}
    (h : ∀ r ∈ rows, canonicalStatus r = true) (hop : updCanonical op) :
    ∀ r ∈ applyQueueOp rows op, canonicalStatus r = true := by
  cases op with
  | enq slug payload suffix now =>
    intro r hr
    simp only [applyQueueOp, enqueue_task] at hr
    rcases List.mem_append.mp hr with hin | hnew
    · exact h r hin
    · rcases List.mem_singleton.mp hnew with rfl
      rfl
  | claim now =>
    have hsnd : (claim_pending_task now rows).2 = rows ∨
        ∃ i, (claim_pending_task now rows).2 = setRunning now i rows := by
      rcases hm : minByCreated (rows.filter isPending) with _ | row
      · left
        simp [claim_pending_task, hm]
      · right
        exact ⟨row.id, by simp [claim_pending_task, hm]⟩
    intro r hr
    simp only [applyQueueOp] at hr
    rcases hsnd with heq | ⟨i, heq⟩
    · rw [heq] at hr
      exact h r hr
    · rw [heq] at hr
      unfold setRunning at hr
      rcases List.mem_map.mp hr with ⟨x, hx, hxeq⟩
      by_cases hid : (x.id == i) = true
      · rw [if_pos hid] at hxeq
        rw [← hxeq]
        rfl
      · rw [if_neg hid] at hxeq
        rw [← hxeq]
        exact h x hx
  | upd tid st res err now =>
    intro r hr
    simp only [applyQueueOp, update_task_status] at hr
    rcases List.mem_map.mp hr with ⟨x, hx, hxeq⟩
    by_cases hid : (x.id == tid) = true
    · rw [if_pos hid] at hxeq
      rw [← hxeq]
      rcases hop with h' | h' | h' | h' <;> (subst h'; rfl)
    · rw [if_neg hid] at hxeq
      rw [← hxeq]
      exact h x hx

/-- Lemma for C7: the canonical-status invariant holds after any prefix of
a well-formed operation sequence. -/
theorem foldQueueOps_canonical : ∀ (ops : List QueueOp) (rows : List TaskRow),
    (∀ r ∈ rows, canonicalStatus r = true) → (∀ op ∈ ops, updCanonical op) →
    ∀ r ∈ ops.foldl applyQueueOp rows, canonicalStatus r = true := by
  intro ops
  induction ops with
  | nil =>
    intro rows h _ r hr
    exact h r hr
  | cons op rest ih =>
    intro rows h hops r hr
    simp only [List.foldl_cons] at hr
    exact ih (applyQueueOp rows op)
      (applyQueueOp_canonical h (hops op (List.mem_cons_self _ _)))
      (fun o ho => hops o (List.mem_cons_of_mem _ ho)) r hr

/-- C7 counterexample: `update_task_status` accepts any status string, and
`get_queue_stats` silently drops statuses outside its four buckets — after
an enqueue and an update to "CANCELLED" the stats sum to 0 while the table
holds 1 row, refuting the invariant for arbitrary update sequences. -/
theorem stats_dropped_status_counterexample :
    statsSum (get_queue_stats (runQueueOps
        [.enq "t" (.jobj []) "x" 0, .upd "trigger_t_x" "CANCELLED" none none 1])) ≠
      (runQueueOps
        [.enq "t" (.jobj []) "x" 0, .upd "trigger_t_x" "CANCELLED" none none 1]).length := by
  decide

/-- C7 (amended): for every sequence of enqueue / claim / update operations
whose updates use only the four canonical statuses — as every caller in
the repository does — the sum of the per-status counts returned by
`stats()` equals the total row count; since every prefix of such a
sequence is again such a sequence, the invariant holds at every
observation point. -/
theorem stats_consistency (ops : List QueueOp)
    (h : ∀ op ∈ ops, updCanonical op) :
    statsSum (get_queue_stats (runQueueOps ops)) = (runQueueOps ops).length := by
  have hall : ∀ r ∈ runQueueOps ops, canonicalStatus r = true :=
    foldQueueOps_canonical ops [] (fun r hr => absurd hr (List.not_mem_nil r)) h
  rw [statsSum_eq_countP]
  exact List.countP_eq_length.mpr hall

/-- Witness for C7 after an enqueue, a claim and a SUCCESS update. -/
theorem stats_consistency_witness :
    statsSum (get_queue_stats (runQueueOps
        [.enq "t" (.jobj []) "x" 0, .claim 1,
         .upd "trigger_t_x" "SUCCESS" (some (.jobj [])) none 2])) =
      (runQueueOps
        [.enq "t" (.jobj []) "x" 0, .claim 1,
         .upd "trigger_t_x" "SUCCESS" (some (.jobj [])) none 2]).length :=
  stats_consistency
    [.enq "t" (.jobj []) "x" 0, .claim 1,
     .upd "trigger_t_x" "SUCCESS" (some (.jobj [])) none 2]
    (by
      intro op hop
      rcases List.mem_cons.mp hop with rfl | hop
      · trivial
      rcases List.mem_cons.mp hop with rfl | hop
      · trivial
      rcases List.mem_cons.mp hop with rfl | hop
      · exact Or.inr (Or.inr (Or.inl rfl))
      · cases hop)

theorem optNatLE_total : ∀ a b : Option Nat, optNatLE a b = true ∨ optNatLE b a = true
  | none, _ => Or.inl rfl
  | some _, none => Or.inr rfl
  | some a, some b => by
    rcases Nat.le_total a b with h | h
    · left
      simpa [optNatLE] using h
    · right
      simpa [optNatLE] using h

theorem optNatLE_trans : ∀ a b c : Option Nat, optNatLE a b = true →
    optNatLE b c = true → optNatLE a c = true
  | none, _, _ => by intro _ _; rfl
  | some _, none, _ => by intro h _; simp [optNatLE] at h
  | some _, some _, none => by intro _ h; simp [optNatLE] at h
  | some a, some b, some c => by
    intro h₁ h₂
    simp only [optNatLE, decide_eq_true_eq] at h₁ h₂ ⊢
    omega

instance : IsTotal IdemRecord completedAtLE :=
  ⟨fun a b => optNatLE_total a.completed_at b.completed_at⟩

instance : IsTrans IdemRecord completedAtLE :=
  ⟨fun _ _ _ hab hbc => optNatLE_trans _ _ _ hab hbc⟩

/-- C3: retrying a FAILED task whose payload carries a string `instruction`
reports exactly the number of the task's COMPLETED idempotency records;
the injected steps are exactly those records (tool, summary, completion
time), in `completed_at` ascending order; with no completed step the
payload is untouched; with steps the retry note for precisely those steps is
appended to the instruction; in both cases the row requeues as PENDING
with `error` cleared. -/
theorem retry_replay_safety (tid : String) (now : Nat) (rows : List TaskRow)
    (store : List IdemRecord) (row : TaskRow) (fs : List (String × JVal))
    (instr : String)
    (hfind : rows.find? (fun r => r.id == tid) = some row)
    (hst : row.status = "FAILED")
    (hpl : row.payload = .jobj fs)
    (hinstr : jlookup "instruction" fs = some (.jstr instr)) :
    (retry_task tid now rows store).1 =
      .requeued (get_completed_steps tid store).length ∧
    (get_completed_steps tid store).length =
      (store.filter fun r => r.task_id == tid && r.status == "COMPLETED").length ∧
    (get_completed_steps tid store).Perm
      ((store.filter fun r => r.task_id == tid && r.status == "COMPLETED").map
        (fun r => ⟨r.tool_name, summaryOf r.response_body, r.completed_at⟩)) ∧
    List.Pairwise (fun s t => optNatLE s.completed_at t.completed_at = true)
      (get_completed_steps tid store) ∧
    (get_completed_steps tid store = [] →
      (retry_task tid now rows store).2.find? (fun r => r.id == tid) =
        some { row with status := "PENDING", error := none, updated_at := now }) ∧
    (get_completed_steps tid store ≠ [] →
      (retry_task tid now rows store).2.find? (fun r => r.id == tid) =
        some { row with
                status := "PENDING"
                error := none
                payload := .jobj (setField fs "instruction"
                  (.jstr (instr ++ retryNote (get_completed_steps tid store))))
                updated_at := now }) := by
  have hrowid : (row.id == tid) = true := by
    have h := List.find?_some hfind
    simpa using h
  have hne : (row.status != "FAILED") = false := by rw [hst]; rfl
  refine ⟨?_, ?_, ?_, ?_, ?_, ?_⟩
  · by_cases hemp : get_completed_steps tid store = []
    · have he : (get_completed_steps tid store).isEmpty = true := by
        rw [hemp]; rfl
      simp [retry_task, hfind, hne, he]
    · have he : (get_completed_steps tid store).isEmpty = false := by
        rcases hi : (get_completed_steps tid store).isEmpty with _ | _
        · rfl
        · exact absurd (List.isEmpty_iff.mp hi) hemp
      have hpatch : patchPayload row.payload
          (retryNote (get_completed_steps tid store)) =
          some (.jobj (setField fs "instruction"
            (.jstr (instr ++ retryNote (get_completed_steps tid store))))) := by
        rw [hpl]
        simp [patchPayload, hinstr]
      simp [retry_task, hfind, hne, he, hpatch]
  · simp [get_completed_steps, List.length_insertionSort]
  · exact (List.perm_insertionSort completedAtLE _).map _
  · exact List.pairwise_map.mpr
      ((List.sorted_insertionSort completedAtLE _).imp fun h => h)
  · intro hemp
    have he : (get_completed_steps tid store).isEmpty = true := by
      rw [hemp]; rfl
    have hgid : ∀ r : TaskRow,
        ((if r.id == tid then
            { r with status := "PENDING", error := none, updated_at := now }
          else r) : TaskRow).id = r.id := by
      intro r
      by_cases hx : (r.id == tid) = true
      · simp [hx]
      · simp [hx]
    have hmap := find?_id_map _ hgid rows tid
    simp only [retry_task, hfind, hne, he, Bool.false_eq_true, if_false,
      if_true, requeuePlain]
    rw [hmap, hfind]
    simp only [Option.map_some', hrowid, if_true]
  · intro hemp
    have he : (get_completed_steps tid store).isEmpty = false := by
      rcases hi : (get_completed_steps tid store).isEmpty with _ | _
      · rfl
      · exact absurd (List.isEmpty_iff.mp hi) hemp
    have hpatch : patchPayload row.payload
        (retryNote (get_completed_steps tid store)) =
        some (.jobj (setField fs "instruction"
          (.jstr (instr ++ retryNote (get_completed_steps tid store))))) := by
      rw [hpl]
      simp [patchPayload, hinstr]
    have hgid : ∀ r : TaskRow,
        ((if r.id == tid then
            { r with
              status := "PENDING"
              error := none
              payload := .jobj (setField fs "instruction"
                (.jstr (instr ++ retryNote (get_completed_steps tid store))))
              updated_at := now }
          else r) : TaskRow).id = r.id := by
      intro r
      by_cases hx : (r.id == tid) = true
      · simp [hx]
      · simp [hx]
    have hmap := find?_id_map _ hgid rows tid
    simp only [retry_task, hfind, hne, he, Bool.false_eq_true, if_false,
      hpatch, requeueWithPayload]
    rw [hmap, hfind]
    simp only [Option.map_some', hrowid, if_true]

/-- Witness for C3: a FAILED task with zero completed steps requeues with
count 0 and an untouched instruction; with two COMPLETED records the
reported count is 2. -/
theorem retry_replay_safety_witness :
    (retry_task "t1" 5
        [⟨"t1", "s", .jobj [("instruction", .jstr "go")], "FAILED", none,
          some "boom", 0, 0⟩] []).1 = .requeued 0 ∧
    (retry_task "t1" 5
        [⟨"t1", "s", .jobj [("instruction", .jstr "go")], "FAILED", none,
          some "boom", 0, 0⟩] []).2.find? (fun r => r.id == "t1") =
      some ⟨"t1", "s", .jobj [("instruction", .jstr "go")], "PENDING", none,
        none, 0, 5⟩ ∧
    (retry_task "t1" 5
        [⟨"t1", "s", .jobj [("instruction", .jstr "go")], "FAILED", none,
          some "boom", 0, 0⟩]
        [⟨"k1", "t1", "toolA", "COMPLETED", some [("summary", .jstr "did A")], 0, some 1⟩,
         ⟨"k2", "t1", "toolB", "COMPLETED", some [("summary", .jstr "did B")], 0, some 2⟩]).1 =
      .requeued 2 :=
  ⟨(retry_replay_safety "t1" 5
      [⟨"t1", "s", .jobj [("instruction", .jstr "go")], "FAILED", none,
        some "boom", 0, 0⟩] []
      ⟨"t1", "s", .jobj [("instruction", .jstr "go")], "FAILED", none,
        some "boom", 0, 0⟩
      [("instruction", .jstr "go")] "go" rfl rfl rfl rfl).1,
   (retry_replay_safety "t1" 5
      [⟨"t1", "s", .jobj [("instruction", .jstr "go")], "FAILED", none,
        some "boom", 0, 0⟩] []
      ⟨"t1", "s", .jobj [("instruction", .jstr "go")], "FAILED", none,
        some "boom", 0, 0⟩
      [("instruction", .jstr "go")] "go" rfl rfl rfl rfl).2.2.2.2.1 rfl,
   (retry_replay_safety "t1" 5
      [⟨"t1", "s", .jobj [("instruction", .jstr "go")], "FAILED", none,
        some "boom", 0, 0⟩]
      [⟨"k1", "t1", "toolA", "COMPLETED", some [("summary", .jstr "did A")], 0, some 1⟩,
       ⟨"k2", "t1", "toolB", "COMPLETED", some [("summary", .jstr "did B")], 0, some 2⟩]
      ⟨"t1", "s", .jobj [("instruction", .jstr "go")], "FAILED", none,
        some "boom", 0, 0⟩
      [("instruction", .jstr "go")] "go" rfl rfl rfl rfl).1⟩

end TrustChain
